import Mathlib

set_option linter.unusedVariables false

/- A verification development for the RTL8139 network driver
   (src/network/rtl8139.rs): the hardware receive-ring parser, the
   round-robin transmit scheduler, the channel registry, and the file-like
   resource operations (read/write/seek/flush/drop).  Machine integers are
   modelled as Nat with explicit `% 2 ^ w` where wrap-around matters. -/

/-- One Ethernet frame: a list of byte values.  Queues of frames are FIFO
    lists with the pop side at the head and the push side at the tail. -/
abbrev Frame := List Nat

/-! ## Receive path: `RTL8139::receive_inbound` -/

/-- Byte fetch from ring memory (a `*const u8` read); values reduced mod 256. -/
def byteAt (ring : Nat → Nat) (a : Nat) : Nat := ring a % 256

/-- The little-endian u16 length header,
    `*((receive_buffer + capr + 2) as *const u16)`. -/
def frameLen (ring : Nat → Nat) (rb capr : Nat) : Nat :=
  byteAt ring (rb + capr + 2) + 256 * byteAt ring (rb + capr + 3)

/-- The payload copy `Vec::from_raw_buf((receive_buffer + capr + 4) as *const u8,
    frame_len - 4)`.  A usize underflow (`frame_len < 4`) would be a wild
    multi-gigabyte read in the source; it is modelled with truncated
    subtraction (an empty read). -/
def framePayload (ring : Nat → Nat) (rb capr : Nat) : Frame :=
  (List.range (frameLen ring rb capr - 4)).map (fun k => byteAt ring (rb + capr + 4 + k))

/-- Per-frame cursor advance: `capr = capr + frame_len + 4;
    capr = (capr + 3) & (0xFFFFFFFF - 3); if capr >= 8192 { capr -= 8192 }`. -/
def caprAdvance (capr len : Nat) : Nat :=
  if 8192 ≤ ((capr + len + 4 + 3) &&& (0xFFFFFFFF - 3))
  then ((capr + len + 4 + 3) &&& (0xFFFFFFFF - 3)) - 8192
  else ((capr + len + 4 + 3) &&& (0xFFFFFFFF - 3))

/-- The CAPR register write `outw(base + 0x38, (capr as u16) - 16)`:
    a wrapping u16 subtraction. -/
def caprWriteVal (capr : Nat) : Nat := (capr % 65536 + 65520) % 65536

/-- Result of one run of receive-ring processing: the final read cursor, the
    sequence of values written to the CAPR register, and the updated inbound
    queues of all registered channels. -/
structure RxResult where
  capr : Nat
  writes : List Nat
  channels : List (List Frame)

/-- The `while capr != cbr` loop of `receive_inbound`, fuel-bounded (for
    adversarial ring contents the source loop need not terminate).  Each
    iteration reads the length header at the cursor, pushes an independent
    copy of the payload onto every registered channel's inbound queue,
    advances the cursor and writes the biased cursor back to CAPR. -/
def rxLoop : Nat → (Nat → Nat) → Nat → Nat → Nat → List (List Frame) → List Nat → RxResult
  | 0, _, _, _, capr, chs, ws => ⟨capr, ws, chs⟩
  | fuel+1, ring, rb, cbr, capr, chs, ws =>
    if capr = cbr then ⟨capr, ws, chs⟩
    else
      rxLoop fuel ring rb cbr (caprAdvance capr (frameLen ring rb capr))
        (chs.map (fun q => q ++ [framePayload ring rb capr]))
        (ws ++ [caprWriteVal (caprAdvance capr (frameLen ring rb capr))])

/-- `RTL8139::receive_inbound`: reads the CAPR register (biased by +16 with
    u16 wrap-around: `(inw(base + 0x38) + 16) as usize`) and the CBR register,
    then runs the ring-parsing loop over the registered channels. -/
def receive_inbound (fuel : Nat) (ring : Nat → Nat) (rb caprReg cbr : Nat)
    (chs : List (List Frame)) : RxResult :=
  rxLoop fuel ring rb (cbr % 65536) ((caprReg % 65536 + 16) % 65536) chs []

/-- The payloads the receive loop extracts, in ring order. -/
def rxFrames : Nat → (Nat → Nat) → Nat → Nat → Nat → List Frame
  | 0, _, _, _, _ => []
  | fuel+1, ring, rb, cbr, capr =>
    if capr = cbr then []
    else framePayload ring rb capr ::
      rxFrames fuel ring rb cbr (caprAdvance capr (frameLen ring rb capr))

theorem framePayload_length (ring : Nat → Nat) (rb capr : Nat) :
    (framePayload ring rb capr).length = frameLen ring rb capr - 4 := by
  simp [framePayload]

theorem rxLoop_channels (ring : Nat → Nat) (rb cbr : Nat) :
    ∀ (fuel capr : Nat) (chs : List (List Frame)) (ws : List Nat),
      (rxLoop fuel ring rb cbr capr chs ws).channels
        = chs.map (fun q => q ++ rxFrames fuel ring rb cbr capr) := by
  intro fuel
  induction fuel with
  | zero => intro capr chs ws; simp [rxLoop, rxFrames]
  | succ n ih =>
    intro capr chs ws
    by_cases h : capr = cbr
    · simp [rxLoop, rxFrames, h]
    · simp only [rxLoop, rxFrames, if_neg h]
      rw [ih, List.map_map]
      refine List.map_congr_left ?_
      intro q hq
      simp [List.append_assoc]

/-- C2: for every sequence of frames present in the receive ring between the
    read cursor and the hardware write offset, receive-ring processing appends
    to the inbound queue of every registered channel an independent copy of
    each frame's payload, in ring order (`rxFrames`), and each extracted
    payload's length is its header length minus 4 (header and trailer
    stripped). -/
theorem c2_fanout_ring_order (fuel : Nat) (ring : Nat → Nat) (rb caprReg cbr : Nat)
    (chs : List (List Frame)) :
    (receive_inbound fuel ring rb caprReg cbr chs).channels
      = chs.map
          (fun q => q ++ rxFrames fuel ring rb (cbr % 65536) ((caprReg % 65536 + 16) % 65536))
    ∧ ∀ c : Nat, (framePayload ring rb c).length = frameLen ring rb c - 4 :=
  ⟨rxLoop_channels ring rb _ fuel _ chs [], fun c => framePayload_length ring rb c⟩

/-- Memory contents for the C1 scenario: one frame at cursor 0 whose length
    header (little-endian at offsets 2..3) reads 50; all payload bytes 0. -/
def ringC1 : Nat → Nat := fun a => if a = 2 then 50 else 0

/-- C1 counterexample: with one frame of header length 50 at cursor 0
    (CAPR register reads 0xFFF0, i.e. cursor 0 after the +16 bias; CBR at the
    4-byte-aligned end of the frame, 56), the code advances the cursor by
    `frame_len + 4 = 54` rounded up to 56 — not to 52 — and writes 40 — not
    36 — to the CAPR register. -/
theorem c1_receive_single_frame_counterexample :
    (receive_inbound 2 ringC1 0 65520 56 [[]]).capr = 56 ∧
    (receive_inbound 2 ringC1 0 65520 56 [[]]).writes = [40] ∧
    (receive_inbound 2 ringC1 0 65520 56 [[]]).capr ≠ 52 ∧
    (receive_inbound 2 ringC1 0 65520 56 [[]]).writes ≠ [36] ∧
    (receive_inbound 2 ringC1 0 65520 56 [[]]).channels = [[List.replicate 46 0]] := by
  decide

/-- C1 (amended): when the receive ring contains exactly one frame at cursor 0
    whose length header reads 50 (46-byte payload plus 4-byte trailer), one
    pass of receive-ring processing advances the read cursor to 56
    (= 0 + 50 + 4 rounded up to 4-byte alignment), writes 40 (= 56 − 16) to
    the hardware CAPR register, and increases every registered channel's
    inbound queue by exactly one 46-byte entry. -/
theorem c1_receive_single_frame_amended (ring : Nat → Nat) (cs : List (List Frame))
    (h2 : ring 2 % 256 = 50) (h3 : ring 3 % 256 = 0) :
    (receive_inbound 2 ring 0 65520 56 cs).capr = 56 ∧
    (receive_inbound 2 ring 0 65520 56 cs).writes = [40] ∧
    (receive_inbound 2 ring 0 65520 56 cs).channels
      = cs.map (fun q => q ++ [framePayload ring 0 0]) ∧
    (framePayload ring 0 0).length = 46 := by
  have hlen : frameLen ring 0 0 = 50 := by
    simp [frameLen, byteAt, h2, h3]
  have hadv : caprAdvance 0 50 = 56 := by decide
  have hw : caprWriteVal 56 = 40 := by decide
  refine ⟨?_, ?_, ?_, ?_⟩
  · simp [receive_inbound, rxLoop, hlen, hadv]
  · simp [receive_inbound, rxLoop, hlen, hadv, hw]
  · simp [receive_inbound, rxLoop, hlen, hadv]
  · simp [framePayload_length, hlen]

/-- C1 witness: the amended scenario instantiated on concrete ring contents
    and a single registered channel. -/
theorem c1_receive_single_frame_witness :
    (receive_inbound 2 ringC1 0 65520 56 [[]]).writes = [40] ∧
    (framePayload ringC1 0 0).length = 46 :=
  ⟨(c1_receive_single_frame_amended ringC1 [[]] (by decide) (by decide)).2.1,
   (c1_receive_single_frame_amended ringC1 [[]] (by decide) (by decide)).2.2.2⟩

/-! ## C7: cursor alignment invariant -/

theorem land_align4 (x : Nat) (hx : x < 4294967296) :
    x &&& 4294967292 = x - x % 4 := by
  have hrhs : x - x % 4 = (x >>> 2) <<< 2 := by
    rw [Nat.shiftRight_eq_div_pow, Nat.shiftLeft_eq]
    omega
  have hmask : (4294967292 : Nat) = (2 ^ 30 - 1) <<< 2 := by
    rw [Nat.shiftLeft_eq]
    norm_num
  apply Nat.eq_of_testBit_eq
  intro i
  rw [Nat.testBit_land, hrhs, hmask, Nat.testBit_shiftLeft, Nat.testBit_shiftLeft,
    Nat.testBit_two_pow_sub_one, Nat.testBit_shiftRight]
  by_cases h2 : 2 ≤ i
  · by_cases h32 : i < 32
    · have hi : 2 + (i - 2) = i := by omega
      have hlt : i - 2 < 30 := by omega
      simp [h2, hi, hlt]
    · have hxi : x.testBit i = false := by
        refine Nat.testBit_lt_two_pow (lt_of_lt_of_le hx ?_)
        calc (4294967296 : Nat) = 2 ^ 32 := by norm_num
          _ ≤ 2 ^ i := Nat.pow_le_pow_right (by norm_num) (by omega)
      have hi : 2 + (i - 2) = i := by omega
      have hge : ¬ (i - 2 < 30) := by omega
      simp [h2, hi, hge, hxi]
  · simp [h2]

/-- C7 counterexample: the per-frame cursor advance leaves the ring for a
    hardware-reportable header length.  From the aligned in-ring cursor 8188,
    a reported header length of 8189 (a valid u16) advances the cursor to
    8192, which is not an offset inside the 8192-byte ring. -/
theorem c7_cursor_alignment_counterexample :
    caprAdvance 8188 8189 = 8192 ∧ ¬ (caprAdvance 8188 8189 < 8192) := by
  decide

/-- C7 (amended): after each per-frame advance the read cursor stays a
    4-byte-aligned offset inside the 8192-byte ring, provided each reported
    header length is at most 8188 (so that the aligned advance
    `frame_len + 4` is at most 8192); the single conditional subtraction of
    8192 is a full wrap only under that bound. -/
theorem c7_cursor_alignment_amended (capr len : Nat)
    (hc : capr < 8192) (ha : capr % 4 = 0) (hl : len ≤ 8188) :
    caprAdvance capr len % 4 = 0 ∧ caprAdvance capr len < 8192 := by
  have hmask : (0xFFFFFFFF - 3 : Nat) = 4294967292 := by norm_num
  unfold caprAdvance
  rw [hmask, land_align4 (capr + len + 4 + 3) (by omega)]
  split <;> omega

/-- C7 witness: the amended invariant at cursor 0 with header length 50. -/
theorem c7_cursor_alignment_witness :
    caprAdvance 0 50 % 4 = 0 ∧ caprAdvance 0 50 < 8192 :=
  c7_cursor_alignment_amended 0 50 (by decide) (by decide) (by decide)

/-! ## Transmit path: `RTL8139::send_outbound` -/

/-- Total number of frames queued across all outbound queues. -/
def totalLen (qs : List (List Frame)) : Nat := (qs.map List.length).sum

/-- One pass of the inner `for resource in self.resources.iter()` scan with
    the `found` flag: each resource in turn pops one frame while nothing has
    been found yet; a popped frame of length < 8192 is the frame to send
    (later resources are left untouched); a popped oversized frame is
    discarded (only logged) and the scan moves on to the next resource.
    Returns the frame to send, if any, and the updated outbound queues. -/
def txScan : List (List Frame) → Option Frame × List (List Frame)
  | [] => (none, [])
  | [] :: qs =>
    let r := txScan qs
    (r.1, [] :: r.2)
  | (f :: q) :: qs =>
    if f.length < 8192 then (some f, q :: qs)
    else
      let r := txScan qs
      (r.1, q :: r.2)

theorem txScan_some_total :
    ∀ (qs : List (List Frame)) (f : Frame) (qs' : List (List Frame)),
      txScan qs = (some f, qs') → totalLen qs' < totalLen qs := by
  intro qs
  induction qs with
  | nil => intro f qs' h; simp [txScan] at h
  | cons q qs ih =>
    intro f qs' h
    match q with
    | [] =>
      rcases hscan : txScan qs with ⟨o, qs2⟩
      rw [txScan, hscan] at h
      simp only [Prod.mk.injEq] at h
      obtain ⟨h1, h2⟩ := h
      subst h1
      subst h2
      have := ih f qs2 hscan
      simp only [totalLen, List.map_cons, List.length_nil, List.sum_cons] at *
      omega
    | g :: rest =>
      by_cases hg : g.length < 8192
      · rw [txScan, if_pos hg] at h
        simp only [Prod.mk.injEq] at h
        obtain ⟨h1, h2⟩ := h
        subst h2
        simp only [totalLen, List.map_cons, List.length_cons, List.sum_cons]
        omega
      · rcases hscan : txScan qs with ⟨o, qs2⟩
        rw [txScan, if_neg hg, hscan] at h
        simp only [Prod.mk.injEq] at h
        obtain ⟨h1, h2⟩ := h
        subst h1
        subst h2
        have := ih f qs2 hscan
        simp only [totalLen, List.map_cons, List.length_cons, List.sum_cons] at *
        omega

/-- Result of one run of transmit processing: the transmit status registers
    (indexed by slot), the round-robin index, the outbound queues, and the
    chronological list of (slot, frame) pairs copied into transmit buffers
    and triggered. -/
structure TxResult where
  txStatus : Nat → Nat
  tx_i : Nat
  resources : List (List Frame)
  sends : List (Nat × Frame)

/-- The outer `loop` of `send_outbound`: while the current round-robin slot's
    status register has bit 13 (slot available) set, scan the resources for a
    frame; a found (< 8192 byte) frame is copied into the slot's buffer and
    its length written to the slot's status register (`len & 0x1FFF`, which
    clears bit 13), then the round-robin index advances modulo 4; if the scan
    found nothing (any oversized frames it popped are already dropped), or
    the slot is busy, stop. -/
def sendLoop (st : Nat → Nat) (t : Nat) (qs : List (List Frame)) : TxResult :=
  if Nat.testBit (st t) 13 then
    match hscan : txScan qs with
    | (some f, qs') =>
      let r := sendLoop (fun j => if j = t then f.length % 8192 else st j) ((t + 1) % 4) qs'
      ⟨r.txStatus, r.tx_i, r.resources, (t, f) :: r.sends⟩
    | (none, qs') => ⟨st, t, qs', []⟩
  else ⟨st, t, qs, []⟩
termination_by totalLen qs
decreasing_by exact txScan_some_total qs f qs' hscan

/-- `RTL8139::send_outbound`: if no registered resource has outbound data,
    return at once without touching the hardware; otherwise run the slot
    loop. -/
def send_outbound (st : Nat → Nat) (t : Nat) (qs : List (List Frame)) : TxResult :=
  if qs.any (fun q => decide (0 < q.length)) then sendLoop st t qs else ⟨st, t, qs, []⟩

theorem sendLoop_busy (st : Nat → Nat) (t : Nat) (qs : List (List Frame))
    (h : Nat.testBit (st t) 13 = false) : sendLoop st t qs = ⟨st, t, qs, []⟩ := by
  rw [sendLoop.eq_def, h]
  simp

theorem sendLoop_none (st : Nat → Nat) (t : Nat) (qs qs' : List (List Frame))
    (h : Nat.testBit (st t) 13 = true) (hs : txScan qs = (none, qs')) :
    sendLoop st t qs = ⟨st, t, qs', []⟩ := by
  rw [sendLoop.eq_def, h, hs]
  simp

theorem sendLoop_some (st : Nat → Nat) (t : Nat) (qs qs' : List (List Frame)) (f : Frame)
    (h : Nat.testBit (st t) 13 = true) (hs : txScan qs = (some f, qs')) :
    sendLoop st t qs
      = ⟨(sendLoop (fun j => if j = t then f.length % 8192 else st j) ((t + 1) % 4) qs').txStatus,
         (sendLoop (fun j => if j = t then f.length % 8192 else st j) ((t + 1) % 4) qs').tx_i,
         (sendLoop (fun j => if j = t then f.length % 8192 else st j) ((t + 1) % 4) qs').resources,
         (t, f) ::
           (sendLoop (fun j => if j = t then f.length % 8192 else st j) ((t + 1) % 4) qs').sends⟩ := by
  rw [sendLoop.eq_def, h, hs]
  simp

theorem txScan_some_small :
    ∀ (qs qs' : List (List Frame)) (f : Frame),
      txScan qs = (some f, qs') → f.length < 8192 := by
  intro qs
  induction qs with
  | nil => intro qs' f h; simp [txScan] at h
  | cons q qs ih =>
    intro qs' f h
    match q with
    | [] =>
      rcases hscan : txScan qs with ⟨o, qs2⟩
      rw [txScan, hscan] at h
      simp only [Prod.mk.injEq] at h
      exact ih qs2 f (by rw [hscan, h.1])
    | g :: rest =>
      by_cases hg : g.length < 8192
      · rw [txScan, if_pos hg] at h
        simp only [Prod.mk.injEq] at h
        obtain ⟨h1, h2⟩ := h
        cases h1
        exact hg
      · rcases hscan : txScan qs with ⟨o, qs2⟩
        rw [txScan, if_neg hg, hscan] at h
        simp only [Prod.mk.injEq] at h
        exact ih qs2 f (by rw [hscan, h.1])

theorem sendLoop_sends_small :
    ∀ (n : Nat) (qs : List (List Frame)), totalLen qs ≤ n → ∀ (st : Nat → Nat) (t : Nat)
      (p : Nat × Frame), p ∈ (sendLoop st t qs).sends → p.2.length < 8192 := by
  intro n
  induction n with
  | zero =>
    intro qs hq st t p hp
    by_cases h : Nat.testBit (st t) 13 = true
    · rcases hscan : txScan qs with ⟨o, qs2⟩
      match o with
      | some f => exact absurd (txScan_some_total qs f qs2 hscan) (by omega)
      | none =>
        rw [sendLoop_none st t qs qs2 h hscan] at hp
        simp at hp
    · rw [sendLoop_busy st t qs (Bool.not_eq_true _ ▸ h)] at hp
      simp at hp
  | succ n ih =>
    intro qs hq st t p hp
    by_cases h : Nat.testBit (st t) 13 = true
    · rcases hscan : txScan qs with ⟨o, qs2⟩
      match o with
      | some f =>
        rw [sendLoop_some st t qs qs2 f h hscan] at hp
        simp only [List.mem_cons] at hp
        rcases hp with hp | hp
        · subst hp
          exact txScan_some_small qs qs2 f hscan
        · have hlt := txScan_some_total qs f qs2 hscan
          exact ih qs2 (by omega) _ _ p hp
      | none =>
        rw [sendLoop_none st t qs qs2 h hscan] at hp
        simp at hp
    · rw [sendLoop_busy st t qs (Bool.not_eq_true _ ▸ h)] at hp
      simp at hp

/-- One open handle (`RTL8139Resource`): an inbound and an outbound frame
    queue. -/
structure Channel where
  inbound : List Frame
  outbound : List Frame

/-- `RTL8139Resource::write`: pushes a copy of `buf` onto the outbound queue
    under a critical section and reports success with the full byte count.
    (The source then immediately invokes the device's `send_outbound`,
    modelled separately by `send_outbound`.) -/
def resource_write (ch : Channel) (buf : Frame) : Option Nat × Channel :=
  (some buf.length, { ch with outbound := ch.outbound ++ [buf] })

/-- C3: an outbound frame of length at least 8192 is accepted by `write`
    (success with the full byte count, frame pushed onto the outbound queue),
    but when transmit processing reaches it, it pops it (queue length
    decreases by one), never copies it into any transmit slot (every send has
    length < 8192), does not advance the round-robin index for it, and does
    not retry it; a subsequent queued frame is left untouched for the next
    run. -/
theorem c3_oversized_frame_dropped (f g : Frame) (st : Nat → Nat) (t : Nat)
    (hf : 8192 ≤ f.length) (hg : g.length < 8192)
    (ht : Nat.testBit (st t) 13 = true) :
    (∀ (ch : Channel) (buf : Frame),
        resource_write ch buf = (some buf.length, { ch with outbound := ch.outbound ++ [buf] }))
    ∧ (∀ (st' : Nat → Nat) (t' : Nat) (qs : List (List Frame)) (p : Nat × Frame),
        p ∈ (sendLoop st' t' qs).sends → p.2.length < 8192)
    ∧ sendLoop st t [[f]] = ⟨st, t, [[]], []⟩
    ∧ sendLoop st t [[f, g]] = ⟨st, t, [[g]], []⟩ := by
  have hnf : ¬ f.length < 8192 := Nat.not_lt.2 hf
  refine ⟨fun ch buf => rfl,
    fun st' t' qs p hp => sendLoop_sends_small (totalLen qs) qs le_rfl st' t' p hp, ?_, ?_⟩
  · have hs : txScan [[f]] = (none, [[]]) := by
      rw [txScan, if_neg hnf]
      simp [txScan]
    exact sendLoop_none st t [[f]] [[]] ht hs
  · have hs : txScan [[f, g]] = (none, [[g]]) := by
      rw [txScan, if_neg hnf]
      simp [txScan]
    exact sendLoop_none st t [[f, g]] [[g]] ht hs

/-- An oversized frame (8192 zero bytes) for the C3 witness. -/
def frameBig : Frame := List.replicate 8192 0

/-- Transmit status registers with bit 13 (slot available) set on every
    slot. -/
def stAvail : Nat → Nat := fun _ => 8192

/-- C3 witness: the oversized-frame scenarios instantiated with an 8192-byte
    frame, a 1-byte follower, all slots available and round-robin index 0. -/
theorem c3_oversized_frame_dropped_witness :
    sendLoop stAvail 0 [[frameBig]] = ⟨stAvail, 0, [[]], []⟩ ∧
    sendLoop stAvail 0 [[frameBig, [1]]] = ⟨stAvail, 0, [[[1]]], []⟩ := by
  have hlen : frameBig.length = 8192 := by
    rw [frameBig]
    exact List.length_replicate 8192 0
  have h := c3_oversized_frame_dropped frameBig [1] stAvail 0
    (hlen ▸ le_rfl) (by simp) (by decide)
  exact ⟨h.2.2.1, h.2.2.2⟩

theorem totalLen_zero_all_nil :
    ∀ (qs : List (List Frame)), totalLen qs = 0 → ∀ q ∈ qs, q = [] := by
  intro qs
  induction qs with
  | nil => intro _ q hq; simp at hq
  | cons a qs ih =>
    intro h q hq
    simp only [totalLen, List.map_cons, List.sum_cons] at h
    rcases List.mem_cons.1 hq with h1 | h1
    · subst h1
      exact List.length_eq_zero.1 (by omega)
    · exact ih (by simp only [totalLen]; omega) q h1

theorem txScan_all_nil :
    ∀ (qs : List (List Frame)), (∀ q ∈ qs, q = []) → txScan qs = (none, qs) := by
  intro qs
  induction qs with
  | nil => intro _; rfl
  | cons q qs ih =>
    intro hq
    have hq0 : q = [] := hq q (by simp)
    subst hq0
    have := ih (fun x hx => hq x (by simp [hx]))
    rw [txScan, this]

theorem totalLen_pos_exists :
    ∀ (qs : List (List Frame)), 0 < totalLen qs → ∃ q, q ∈ qs ∧ 0 < q.length := by
  intro qs
  induction qs with
  | nil => intro h; simp [totalLen] at h
  | cons a qs ih =>
    intro h
    by_cases ha : 0 < a.length
    · exact ⟨a, by simp, ha⟩
    · have hq : 0 < totalLen qs := by
        simp only [totalLen, List.map_cons, List.sum_cons] at h ⊢
        omega
      obtain ⟨q, hq1, hq2⟩ := ih hq
      exact ⟨q, by simp [hq1], hq2⟩

theorem txScan_pos :
    ∀ (qs : List (List Frame)), (∀ q ∈ qs, ∀ x ∈ q, x.length < 8192) → 0 < totalLen qs →
      ∃ (f : Frame) (qs' : List (List Frame)), txScan qs = (some f, qs')
        ∧ totalLen qs' + 1 = totalLen qs
        ∧ (∀ q ∈ qs', ∀ x ∈ q, x.length < 8192) := by
  intro qs
  induction qs with
  | nil => intro _ h; simp [totalLen] at h
  | cons q qs ih =>
    intro hsmall hpos
    match q with
    | [] =>
      have hpos2 : 0 < totalLen qs := by
        simpa [totalLen] using hpos
      obtain ⟨f, qs', hscan, htot, hsm⟩ := ih (fun x hx => hsmall x (by simp [hx])) hpos2
      refine ⟨f, [] :: qs', ?_, ?_, ?_⟩
      · rw [txScan, hscan]
      · simp only [totalLen, List.map_cons, List.length_nil, List.sum_cons] at htot ⊢
        omega
      · intro x hx
        rcases List.mem_cons.1 hx with h1 | h1
        · subst h1; intro y hy; simp at hy
        · exact hsm x h1
    | g :: rest =>
      have hgs : g.length < 8192 := hsmall (g :: rest) (by simp) g (by simp)
      refine ⟨g, rest :: qs, ?_, ?_, ?_⟩
      · rw [txScan, if_pos hgs]
      · simp only [totalLen, List.map_cons, List.length_cons, List.sum_cons]
        omega
      · intro w hw
        rcases List.mem_cons.1 hw with h1 | h1
        · subst h1
          intro y hy
          exact hsmall (g :: w) (by simp) y (by simp [hy])
        · intro y hy
          exact hsmall w (by simp [h1]) y hy

theorem sendLoop_drain :
    ∀ (N : Nat) (st : Nat → Nat) (t : Nat) (qs : List (List Frame)),
      t < 4 → N ≤ 4 → totalLen qs = N →
      (∀ q ∈ qs, ∀ x ∈ q, x.length < 8192) →
      (∀ k, k < N → Nat.testBit (st ((t + k) % 4)) 13 = true) →
      (sendLoop st t qs).sends.map Prod.fst = (List.range N).map (fun k => (t + k) % 4)
      ∧ totalLen (sendLoop st t qs).resources = 0
      ∧ (sendLoop st t qs).tx_i = (t + N) % 4
      ∧ (sendLoop st t qs).sends.length = N := by
  intro N
  induction N with
  | zero =>
    intro st t qs ht hN htot hsm hav
    have hnil : ∀ q ∈ qs, q = [] := totalLen_zero_all_nil qs htot
    have hscan := txScan_all_nil qs hnil
    by_cases h : Nat.testBit (st t) 13 = true
    · rw [sendLoop_none st t qs qs h hscan]
      simp [htot, Nat.mod_eq_of_lt ht]
    · rw [sendLoop_busy st t qs (Bool.not_eq_true _ ▸ h)]
      simp [htot, Nat.mod_eq_of_lt ht]
  | succ N ih =>
    intro st t qs ht hN htot hsm hav
    have hpos : 0 < totalLen qs := by omega
    obtain ⟨f, qs', hscan, htot', hsm'⟩ := txScan_pos qs hsm hpos
    have hav0 : Nat.testBit (st t) 13 = true := by
      have h0 := hav 0 (by omega)
      simpa [Nat.mod_eq_of_lt ht] using h0
    rw [sendLoop_some st t qs qs' f hav0 hscan]
    have ht2 : (t + 1) % 4 < 4 := Nat.mod_lt _ (by omega)
    have hav2 : ∀ k, k < N →
        Nat.testBit ((fun j => if j = t then f.length % 8192 else st j) (((t + 1) % 4 + k) % 4))
          13 = true := by
      intro k hk
      have hmod : ((t + 1) % 4 + k) % 4 = (t + (k + 1)) % 4 := by omega
      have hne : (t + (k + 1)) % 4 ≠ t := by omega
      rw [hmod]
      simp only [if_neg hne]
      exact hav (k + 1) (by omega)
    obtain ⟨ih1, ih2, ih3, ih4⟩ :=
      ih (fun j => if j = t then f.length % 8192 else st j) ((t + 1) % 4) qs'
        ht2 (by omega) (by omega) hsm' hav2
    refine ⟨?_, ih2, ?_, ?_⟩
    · simp only [List.map_cons, ih1]
      rw [List.range_succ_eq_map, List.map_cons, List.map_map]
      congr 1
      · simp [Nat.mod_eq_of_lt ht]
      · refine List.map_congr_left ?_
        intro k hk
        simp only [Function.comp_apply]
        omega
    · simp only [ih3]
      omega
    · simp [ih4]

/-- C6: with all 4 transmit slots initially free (bit 13 set) and N ≤ 4
    frames of valid length queued across the registered channels, a single
    run of transmit processing dispatches all N frames (queues drain to
    empty, N sends) into N distinct slots: the slot sequence is
    t, (t+1)%4, ..., (t+N-1)%4 — the round-robin index advances modulo 4
    after each send — and it contains no repeats, so no slot is reused
    before every other slot has been used. -/
theorem c6_round_robin_fair (st : Nat → Nat) (t N : Nat) (qs : List (List Frame))
    (ht : t < 4) (hN : N ≤ 4) (htot : totalLen qs = N)
    (hsm : ∀ q ∈ qs, ∀ x ∈ q, x.length < 8192)
    (hav : ∀ j, j < 4 → Nat.testBit (st j) 13 = true) :
    (send_outbound st t qs).sends.map Prod.fst = (List.range N).map (fun k => (t + k) % 4)
    ∧ ((send_outbound st t qs).sends.map Prod.fst).Nodup
    ∧ totalLen (send_outbound st t qs).resources = 0
    ∧ (send_outbound st t qs).tx_i = (t + N) % 4
    ∧ (send_outbound st t qs).sends.length = N := by
  have hnodup : ((List.range N).map (fun k => (t + k) % 4)).Nodup := by
    refine List.Nodup.map_on ?_ (List.nodup_range N)
    intro i hi j hj hij
    simp only [List.mem_range] at hi hj
    omega
  by_cases hany : qs.any (fun q => decide (0 < q.length)) = true
  · obtain ⟨h1, h2, h3, h4⟩ := sendLoop_drain N st t qs ht hN htot hsm
      (fun k hk => hav ((t + k) % 4) (Nat.mod_lt _ (by omega)))
    rw [send_outbound, if_pos hany]
    exact ⟨h1, by rw [h1]; exact hnodup, h2, h3, h4⟩
  · have hN0 : N = 0 := by
      by_contra hne
      have hpos : 0 < totalLen qs := by omega
      obtain ⟨q, hq, hql⟩ := totalLen_pos_exists qs hpos
      exact hany (List.any_eq_true.2 ⟨q, hq, by simpa using hql⟩)
    subst hN0
    rw [send_outbound, if_neg hany]
    simp [htot, Nat.mod_eq_of_lt ht]

/-- C6 witness: two channels with one small frame each, all slots free,
    round-robin index 0: both frames are dispatched, to slots 0 and 1. -/
theorem c6_round_robin_fair_witness :
    (send_outbound stAvail 0 [[[1]], [[2]]]).sends.map Prod.fst
      = (List.range 2).map (fun k => (0 + k) % 4)
    ∧ totalLen (send_outbound stAvail 0 [[[1]], [[2]]]).resources = 0
    ∧ (send_outbound stAvail 0 [[[1]], [[2]]]).tx_i = (0 + 2) % 4 := by
  have h := c6_round_robin_fair stAvail 0 2 [[[1]], [[2]]] (by decide) (by decide)
    (by decide) (by decide) (fun j hj => by simp only [stAvail]; decide)
  exact ⟨h.1, h.2.2.1, h.2.2.2.1⟩

/-! ## Registry removal: `impl Drop for RTL8139Resource` -/

/-- The removal scan in `Drop for RTL8139Resource`: walk the registry with an
    index; when the entry at the index equals this channel's identity pointer
    it is removed in place (the index does not advance), otherwise the index
    advances; stop at the end of the list. -/
def dropLoop (ptr : Nat) (rs : List Nat) (i : Nat) : List Nat :=
  if h : i < rs.length then
    if rs.get ⟨i, h⟩ = ptr then dropLoop ptr (rs.eraseIdx i) i
    else dropLoop ptr rs (i + 1)
  else rs
termination_by rs.length - i
decreasing_by
  · rw [List.length_eraseIdx, if_pos h]
    omega
  · omega

/-- `Drop for RTL8139Resource::drop`: the scan runs only when both the nic
    back-pointer and the identity pointer are non-null. -/
def resource_drop (nic ptr : Nat) (rs : List Nat) : List Nat :=
  if 0 < nic ∧ 0 < ptr then dropLoop ptr rs 0 else rs

theorem dropLoop_eq (ptr : Nat) :
    ∀ (k : Nat) (rs : List Nat) (i : Nat), rs.length - i ≤ k →
      dropLoop ptr rs i = rs.take i ++ (rs.drop i).filter (fun x => x != ptr) := by
  intro k
  induction k with
  | zero =>
    intro rs i hk
    have hle : rs.length ≤ i := by omega
    rw [dropLoop.eq_def, dif_neg (by omega), List.take_of_length_le hle,
      List.drop_eq_nil_of_le hle]
    simp
  | succ k ih =>
    intro rs i hk
    by_cases h : i < rs.length
    · rw [dropLoop.eq_def, dif_pos h]
      by_cases ha : rs.get ⟨i, h⟩ = ptr
      · rw [if_pos ha]
        have hlen : (rs.eraseIdx i).length = rs.length - 1 := by
          rw [List.length_eraseIdx, if_pos h]
        rw [ih (rs.eraseIdx i) i (by omega), List.eraseIdx_eq_take_drop_succ]
        have htk : (List.take i rs).length = i := by
          rw [List.length_take]
          omega
        rw [List.take_left' htk, List.drop_left' htk]
        rw [List.drop_eq_getElem_cons h, List.filter_cons_of_neg]
        have hget : rs[i] = ptr := ha
        simp [hget]
      · rw [if_neg ha]
        rw [ih rs (i + 1) (by omega)]
        rw [List.drop_eq_getElem_cons h, List.filter_cons_of_pos]
        · rw [List.take_succ, List.getElem?_eq_getElem h, List.append_assoc]
          rfl
        · have hget : rs[i] ≠ ptr := ha
          simp [hget]
    · have hle : rs.length ≤ i := by omega
      rw [dropLoop.eq_def, dif_neg h, List.take_of_length_le hle,
        List.drop_eq_nil_of_le hle]
      simp

/-- C4: channel destruction removes from the registry every entry equal to
    the channel's identity pointer (the surviving registry is exactly the old
    one filtered of that pointer), so immediately after destruction no
    registry entry references the destroyed channel. -/
theorem c4_drop_removes_registry_entries (nic ptr : Nat) (rs : List Nat)
    (hn : 0 < nic) (hp : 0 < ptr) :
    resource_drop nic ptr rs = rs.filter (fun x => x != ptr)
    ∧ ptr ∉ resource_drop nic ptr rs := by
  have he : resource_drop nic ptr rs = rs.filter (fun x => x != ptr) := by
    rw [resource_drop, if_pos ⟨hn, hp⟩, dropLoop_eq ptr rs.length rs 0 (by omega)]
    simp
  refine ⟨he, ?_⟩
  rw [he]
  intro hmem
  have hne := (List.mem_filter.1 hmem).2
  simp at hne

/-- C4 witness: a registry holding the pointer twice, plus one other entry. -/
theorem c4_drop_removes_registry_entries_witness :
    resource_drop 1 1 [1, 2, 1] = [1, 2, 1].filter (fun x => x != 1)
    ∧ 1 ∉ resource_drop 1 1 [1, 2, 1] :=
  c4_drop_removes_registry_entries 1 1 [1, 2, 1] (by decide) (by decide)

/-! ## `RTL8139Resource::read` -/

/-- The copy loop of `read`: `while i < buf.len() { match bytes.get(i) {
    Some(byte) => buf[i] = *byte, None => break }; i += 1 }`; returns the
    final index (the count the source reports) and the updated buffer. -/
def readCopyLoop (bytes buf : List Nat) (i : Nat) : Nat × List Nat :=
  if h : i < buf.length then
    if hb : i < bytes.length then
      readCopyLoop bytes (buf.set i (bytes.get ⟨i, hb⟩)) (i + 1)
    else (i, buf)
  else (i, buf)
termination_by buf.length - i
decreasing_by
  rw [List.length_set]
  omega

/-- `RTL8139Resource::read`: one successful poll iteration.  The source pops
    the inbound queue under a critical section; if the queue is empty it
    yields to the scheduler and retries forever — modelled as `none` with
    buffer and queue unchanged.  A popped frame is copied into the front of
    `buf` and the copied count is returned; the remainder of the frame is
    discarded. -/
def resource_read : List Frame → List Nat → Option Nat × List Nat × List Frame
  | [], buf => (none, buf, [])
  | bytes :: rest, buf =>
    (some (readCopyLoop bytes buf 0).1, (readCopyLoop bytes buf 0).2, rest)

theorem readCopyLoop_eq :
    ∀ (k : Nat) (bytes buf : List Nat) (i : Nat), buf.length - i ≤ k →
      i ≤ buf.length → i ≤ bytes.length →
      readCopyLoop bytes buf i
        = (min buf.length bytes.length,
           buf.take i ++ (bytes.take (min buf.length bytes.length)).drop i
             ++ buf.drop (min buf.length bytes.length)) := by
  intro k
  induction k with
  | zero =>
    intro bytes buf i hk hib hibt
    have hmin : min buf.length bytes.length = buf.length := by omega
    rw [readCopyLoop.eq_def, dif_neg (by omega), hmin]
    rw [List.take_of_length_le (by omega), List.drop_length]
    rw [List.drop_eq_nil_of_le (by rw [List.length_take]; omega)]
    have hi : i = buf.length := by omega
    simp [hi]
  | succ k ih =>
    intro bytes buf i hk hib hibt
    by_cases h : i < buf.length
    · by_cases hb : i < bytes.length
      · rw [readCopyLoop.eq_def, dif_pos h, dif_pos hb]
        rw [ih bytes (buf.set i (bytes.get ⟨i, hb⟩)) (i + 1)
          (by rw [List.length_set]; omega) (by rw [List.length_set]; omega) (by omega)]
        rw [List.length_set]
        have hin : i < min buf.length bytes.length := by omega
        have hset : buf.set i (bytes.get ⟨i, hb⟩)
            = buf.take i ++ bytes.get ⟨i, hb⟩ :: buf.drop (i + 1) := by
          rw [List.set_eq_take_append_cons_drop, if_pos h]
        rw [hset]
        have htk : (buf.take i).length = i := by rw [List.length_take]; omega
        rw [List.take_append_eq_append_take, htk]
        rw [List.take_of_length_le (by omega : (buf.take i).length ≤ i + 1)]
        rw [List.drop_append_eq_append_drop, htk]
        rw [List.drop_eq_nil_of_le (by omega : (buf.take i).length ≤ min buf.length bytes.length)]
        have h2 : min buf.length bytes.length - i = (min buf.length bytes.length - i - 1) + 1 := by
          omega
        rw [h2, List.drop_succ_cons, List.drop_drop]
        have h3 : i + 1 + (min buf.length bytes.length - i - 1) = min buf.length bytes.length := by
          omega
        rw [h3]
        have hlt : i < (bytes.take (min buf.length bytes.length)).length := by
          rw [List.length_take]; omega
        rw [List.drop_eq_getElem_cons hlt]
        have hgt : (bytes.take (min buf.length bytes.length))[i] = bytes.get ⟨i, hb⟩ :=
          List.getElem_take bytes
        rw [hgt]
        have h1 : i + 1 - i = 1 := by omega
        rw [h1]
        simp
      · have hi : i = bytes.length := by omega
        have hmin : min buf.length bytes.length = bytes.length := by omega
        rw [readCopyLoop.eq_def, dif_pos h, dif_neg hb, hmin]
        rw [List.drop_eq_nil_of_le (by rw [List.length_take]; omega)]
        simp [hi, List.take_append_drop]
    · have hmin : min buf.length bytes.length = buf.length := by omega
      rw [readCopyLoop.eq_def, dif_neg h, hmin]
      rw [List.take_of_length_le (by omega), List.drop_length]
      rw [List.drop_eq_nil_of_le (by rw [List.length_take]; omega)]
      have hi : i = buf.length := by omega
      simp [hi]

/-- C5 counterexample: `read` with an empty buffer pops the non-empty frame
    [1] and returns a zero-length success (`Some 0`), refuting that a
    zero-length success is never returned for a non-empty popped frame. -/
theorem c5_read_zero_length_counterexample :
    resource_read [[1]] [] = (some 0, [], []) ∧ ([1] : Frame) ≠ [] := by
  constructor
  · simp only [resource_read]
    rw [readCopyLoop.eq_def]
    simp
  · simp

/-- C5 (amended): a `read` that pops a frame copies exactly
    min(len(buf), frame length) bytes of the frame into the front of `buf`,
    returns that count as success, and drops the excess bytes of the frame;
    the count is zero only when `buf` or the frame is empty — for a
    non-empty `buf` and a non-empty frame the count is positive. -/
theorem c5_read_truncation_amended (bytes : Frame) (rest : List Frame) (buf : List Nat) :
    resource_read (bytes :: rest) buf
      = (some (min buf.length bytes.length),
         bytes.take (min buf.length bytes.length) ++ buf.drop (min buf.length bytes.length),
         rest)
    ∧ (buf ≠ [] → bytes ≠ [] → 0 < min buf.length bytes.length) := by
  have h := readCopyLoop_eq buf.length bytes buf 0 (by omega) (by omega) (by omega)
  constructor
  · simp only [resource_read, h]
    simp
  · intro h1 h2
    have l1 : 0 < buf.length := List.length_pos.2 h1
    have l2 : 0 < bytes.length := List.length_pos.2 h2
    omega

/-- C5 witness: a 2-byte frame read into a 3-byte buffer copies both bytes
    to the front, keeps the third buffer byte, and reports count 2 > 0. -/
theorem c5_read_truncation_witness :
    resource_read [[7, 8]] [0, 0, 0]
      = (some (min [0, 0, 0].length [7, 8].length),
         [7, 8].take (min [0, 0, 0].length [7, 8].length)
           ++ [0, 0, 0].drop (min [0, 0, 0].length [7, 8].length),
         [])
    ∧ 0 < min [0, 0, 0].length [7, 8].length := by
  have h := c5_read_truncation_amended [7, 8] [] [0, 0, 0]
  exact ⟨h.1, h.2 (by simp) (by simp)⟩

/-! ## Interrupt entry: `RTL8139::on_irq` (SessionItem) -/

/-- The interrupt-status acknowledge loop: read the status register (u16),
    write the same value back, stop once a read returns zero.  The successive
    hardware reads are an input stream; the returned list is the sequence of
    values written back. -/
def ackLoop : List Nat → List Nat
  | [] => []
  | s :: rest => if s % 65536 = 0 then [s % 65536] else s % 65536 :: ackLoop rest

/-- Device state: the assigned IRQ line, the round-robin transmit index and
    the registered channels. -/
structure Device where
  irq : Nat
  tx_i : Nat
  channels : List Channel

/-- Hardware-side inputs consumed during one interrupt: the status-read
    stream, the ring memory and receive registers, and the transmit status
    registers (plus a fuel bound for the receive loop). -/
structure HwInput where
  statusSeq : List Nat
  ring : Nat → Nat
  rb : Nat
  caprReg : Nat
  cbr : Nat
  txStatus : Nat → Nat
  rxFuel : Nat

/-- Result of `on_irq`: the device state and the hardware effects (status
    acknowledgements, CAPR writes, transmit-buffer copies). -/
structure IrqResult where
  dev : Device
  statusAcks : List Nat
  caprWrites : List Nat
  sends : List (Nat × Frame)

/-- `RTL8139::on_irq`: `if irq == self.irq`, drain and acknowledge the
    interrupt status register, then run `receive_inbound` followed by
    `send_outbound`; otherwise do nothing at all. -/
def on_irq (d : Device) (irq : Nat) (hw : HwInput) : IrqResult :=
  if irq = d.irq then
    let rx := receive_inbound hw.rxFuel hw.ring hw.rb hw.caprReg hw.cbr
      (d.channels.map (fun ch => ch.inbound))
    let chs1 := (d.channels.zip rx.channels).map
      (fun p => Channel.mk p.2 p.1.outbound)
    let tx := send_outbound hw.txStatus d.tx_i (chs1.map (fun ch => ch.outbound))
    let chs2 := (chs1.zip tx.resources).map
      (fun p => Channel.mk p.1.inbound p.2)
    { dev := { irq := d.irq, tx_i := tx.tx_i, channels := chs2 },
      statusAcks := ackLoop hw.statusSeq,
      caprWrites := rx.writes,
      sends := tx.sends }
  else
    { dev := d, statusAcks := [], caprWrites := [], sends := [] }

/-- C8: for every interrupt number different from the device's assigned IRQ
    line, `on_irq` performs no hardware register access (no status
    acknowledgements, no CAPR writes, no transmit copies) and leaves the
    whole device state — round-robin index, registry, and every channel's
    inbound and outbound queues — unchanged; only a call with the matching
    IRQ number takes the branch of `on_irq` that services the status register
    and runs receive then transmit processing. -/
theorem c8_irq_filter (d : Device) (irq : Nat) (hw : HwInput) (hne : irq ≠ d.irq) :
    on_irq d irq hw = { dev := d, statusAcks := [], caprWrites := [], sends := [] } := by
  rw [on_irq, if_neg hne]

/-- Quiescent hardware inputs for the C8 witness. -/
def hwQuiet : HwInput := ⟨[], fun _ => 0, 0, 0, 0, fun _ => 0, 0⟩

/-- C8 witness: IRQ 3 signalled on a device assigned line 11 with one
    registered channel holding queued frames: nothing changes. -/
theorem c8_irq_filter_witness :
    on_irq ⟨11, 2, [⟨[[5]], [[6]]⟩]⟩ 3 hwQuiet
      = { dev := ⟨11, 2, [⟨[[5]], [[6]]⟩]⟩, statusAcks := [], caprWrites := [],
          sends := [] } :=
  c8_irq_filter ⟨11, 2, [⟨[[5]], [[6]]⟩]⟩ 3 hwQuiet (by decide)

/-! ## `RTL8139Resource::seek` and `RTL8139Resource::flush` -/

/-- Modelled from the spec: the seek-position argument type (`ResourceSeek`,
    declared outside this repository's sources); its shape is irrelevant
    because `seek` ignores its argument entirely. -/
inductive ResourceSeek
  | fromStart (n : Nat)
  | fromCurrent (n : Int)
  | fromEnd (n : Int)

/-- `RTL8139Resource::seek`: `return Option::None;` — no state is read or
    written. -/
def resource_seek (ch : Channel) (pos : ResourceSeek) : Option Nat × Channel :=
  (none, ch)

/-- C9: for every argument value and every channel state, `seek` returns a
    failure result (`None`) and leaves the channel (and hence the device)
    unchanged. -/
theorem c9_seek_always_none (ch : Channel) (pos : ResourceSeek) :
    resource_seek ch pos = (none, ch) := rfl

/-- One poll iteration of `RTL8139Resource::flush`: read the outbound queue
    length under a critical section; report success when it is zero,
    otherwise yield and poll again (`none`).  The queue itself is returned
    untouched: flush performs no pop or push. -/
def flushPoll (outbound : List Frame) : Option Bool × List Frame :=
  if outbound.length = 0 then (some true, outbound) else (none, outbound)

/-- The whole blocking `flush` loop over the successive outbound-queue states
    it observes between yields (the queue is mutated only by others, e.g.
    transmit processing): it returns true at the first observation of length
    zero and keeps polling otherwise (a truncated stream means it is still
    blocked). -/
def flushRun : List (List Frame) → Bool
  | [] => false
  | q :: rest => if q.length = 0 then true else flushRun rest

theorem flushRun_iff :
    ∀ (trace : List (List Frame)), flushRun trace = true ↔ ∃ q ∈ trace, q.length = 0 := by
  intro trace
  induction trace with
  | nil => simp [flushRun]
  | cons q rest ih =>
    by_cases hq : q.length = 0
    · constructor
      · intro _
        exact ⟨q, by simp, hq⟩
      · intro _
        simp [flushRun, hq]
    · simp only [flushRun, if_neg hq, ih]
      constructor
      · intro h
        obtain ⟨x, hx, hx0⟩ := h
        exact ⟨x, by simp [hx], hx0⟩
      · intro h
        obtain ⟨x, hx, hx0⟩ := h
        rcases List.mem_cons.1 hx with h1 | h1
        · subst h1; exact absurd hx0 hq
        · exact ⟨x, h1, hx0⟩

/-- C10: `flush` never mutates any state: each poll iteration returns the
    outbound queue unchanged (it never pops or pushes a frame, and touches
    neither the device nor the inbound queue, which it never even receives),
    it reports success exactly when the observed outbound length is zero
    (`some true` on zero, keep-polling otherwise), and over any observed
    trace the loop returns true exactly when some observed queue is empty —
    the queue is emptied only by transmit processing, never by flush
    itself. -/
theorem c10_flush_pure (q : List Frame) (trace : List (List Frame)) :
    (flushPoll q).2 = q
    ∧ (flushPoll q).1 = (if q.length = 0 then some true else none)
    ∧ ((flushPoll q).1 = some true ↔ q.length = 0)
    ∧ (flushRun trace = true ↔ ∃ x ∈ trace, x.length = 0) := by
  refine ⟨?_, ?_, ?_, flushRun_iff trace⟩
  · rw [flushPoll]
    split <;> rfl
  · rw [flushPoll]
    split <;> simp
  · rw [flushPoll]
    split <;> simp_all
